import Mathlib

/-!
Verification of the pub-quiz app (`quiz.py`) against its natural-language
specification.

The program's mutable dictionaries are embedded as insertion-ordered
association lists (matching Python dict semantics: updating an existing key
keeps its position, inserting a new key appends at the end, and iteration
follows insertion order).  The persisted pickle file is embedded as an
`Option QuizState` (the file's deserialized contents, `none` when the file
does not exist).  Each Streamlit tab is embedded as a function from the
session state and the widget inputs to the new session state; a widget
input of `none` means the user left the widget at its displayed default.
-/

set_option maxRecDepth 4000
set_option linter.unusedVariables false

abbrev RoundScores := List (Nat × Nat)
abbrev Names := List (Nat × String)
abbrev Scores := List (Nat × RoundScores)

/-- Lookup in an insertion-ordered association list (Python `d.get(k)` /
`d[k]`): the first entry with the given key. -/
def alistGet {α : Type} (k : Nat) : List (Nat × α) → Option α
  | [] => none
  | p :: rest => if p.1 = k then some p.2 else alistGet k rest

/-- Update in an insertion-ordered association list (Python `d[k] = v`):
replace in place when the key exists, append otherwise. -/
def alistSet {α : Type} (k : Nat) (v : α) : List (Nat × α) → List (Nat × α)
  | [] => [(k, v)]
  | p :: rest => if p.1 = k then (k, v) :: rest else p :: alistSet k v rest

/-- Keys are pairwise distinct (the invariant every Python dict satisfies). -/
abbrev NodupKeys {α : Type} (l : List (Nat × α)) : Prop :=
  l.Pairwise (fun p q => p.1 ≠ q.1)

/-- Stable insertion of `p` into `l`: `p` is placed before the first element
`q` it is not strictly ranked after (`lt q p = false`).  Combined with
`stableSort` below this reproduces the output of Python's stable `sorted`:
an element is ranked before a later element exactly when `lt` holds or the
two are tied. -/
def insertSorted {α : Type} (lt : α → α → Bool) (p : α) : List α → List α
  | [] => [p]
  | q :: rest => if lt q p then q :: insertSorted lt p rest else p :: q :: rest

/-- Stable sort by the strict ranking `lt` (the shallow embedding of
Python's `sorted`, which is stable). -/
def stableSort {α : Type} (lt : α → α → Bool) : List α → List α
  | [] => []
  | p :: rest => insertSorted lt p (stableSort lt rest)

/-- The quiz session state (`st.session_state.quiz_data` in `quiz.py`):
dictionaries `team_names` and `team_scores` plus the two counters. -/
structure QuizState where
  team_names : Names
  team_scores : Scores
  num_teams : Nat
  num_rounds : Nat
  deriving DecidableEq

/-- The dictionary literal returned by `load_quiz_data` when no file exists
(`quiz.py` lines 26-31), also assigned by the reset handler (lines 44-49). -/
def defaultQuizState : QuizState :=
  { team_names := [], team_scores := [], num_teams := 1, num_rounds := 5 }

/-- `load_quiz_data` (`quiz.py` lines 22-31): if the data file exists,
unpickle and return its contents, else return the default dictionary.  The
file is embedded as its deserialized contents (`none` = file absent). -/
def load_quiz_data : Option QuizState → QuizState
  | some s => s
  | none => defaultQuizState

/-- `save_quiz_data` (`quiz.py` lines 34-36): pickle the session state into
the data file, overwriting it unconditionally; returns the new file
contents. -/
def save_quiz_data (s : QuizState) : Option QuizState := some s

/-- Numeric value of a digit string (Python `int` on a `\d+` match). -/
def digitsVal (cs : List Char) : Nat :=
  cs.foldl (fun n c => n * 10 + (c.toNat - 48)) 0

/-- The first maximal run of consecutive digits in a character list
(`re.search(r'(\d+)', ...)` group 1). -/
def firstDigitRun : List Char → Option (List Char)
  | [] => none
  | c :: rest =>
    if c.isDigit then some (c :: rest.takeWhile (fun d => d.isDigit))
    else firstDigitRun rest

/-- The first numeric substring of a filename, as a number. -/
def firstNumber (s : String) : Option Nat :=
  (firstDigitRun s.data).map digitsVal

/-- The sort key computed for one filename on `quiz.py` line 79:
`int(re.search(r'(\d+)', basename).group(1) if re.search(...) else
float('inf'))`.  When a digit exists this is `int` of the first digit run;
when none exists the expression evaluates `int(float('inf'))`, which raises
`OverflowError` — embedded as `none`. -/
def trackKey (fname : String) : Option Nat := firstNumber fname

/-- `music_files_sorted` (`quiz.py` line 79): Python's `sorted` computes the
key of every list element, so the call raises (result `none`) as soon as any
filename has no digit; otherwise it stable-sorts by the numeric key. -/
def music_files_sorted (files : List String) : Option (List String) :=
  if files.all (fun f => (trackKey f).isSome) then
    some (stableSort (fun a b => decide ((trackKey a).getD 0 < (trackKey b).getD 0)) files)
  else none

/-- The default text shown for team `i`'s name field (`quiz.py` line 95):
`team_names.get(i, f"Team {i}")`. -/
def defaultName (ns : Names) (i : Nat) : String :=
  (alistGet i ns).getD ("Team " ++ toString i)

/-- The name-collection loop of the Team Setup tab (`quiz.py` lines 94-96):
for `i` in `1..numTeams`, store the text field's value (the user's entry, or
the displayed default when the user did not edit it). -/
def setupNames (inputs : Nat → Option String) (numTeams : Nat) (ns : Names) : Names :=
  (List.range' 1 numTeams).foldl
    (fun acc i => alistSet i ((inputs i).getD (defaultName acc i)) acc) ns

/-- The Team Setup tab (`quiz.py` lines 88-98): store the team-count widget
value, then collect the team names.  (The tab also saves; persistence is
tracked at the `AppState` level below.) -/
def teamSetupTab (s : QuizState) (numTeams : Nat) (inputs : Nat → Option String) : QuizState :=
  { s with num_teams := numTeams, team_names := setupNames inputs numTeams s.team_names }

/-- The score-initialization loop (`quiz.py` lines 107-109): give every team
id appearing in `team_names` an empty score dictionary if it has none. -/
def initScores (names : Names) (ts : Scores) : Scores :=
  names.foldl
    (fun acc p => if (alistGet p.1 acc).isSome then acc else alistSet p.1 [] acc) ts

/-- One round of the score-entry loop (`quiz.py` lines 113-116): for every
team in `team_names`, store the score widget's value for round `r` (the
user's entry, or the displayed default `team_scores.get(tid, {}).get(r, 0)`
when unedited) into `team_scores[tid][r]`. -/
def scoreRound (names : Names) (inputs : Nat → Nat → Option Nat) (r : Nat)
    (ts : Scores) : Scores :=
  names.foldl
    (fun acc p =>
      alistSet p.1
        (alistSet r
          ((inputs p.1 r).getD ((alistGet r ((alistGet p.1 acc).getD [])).getD 0))
          ((alistGet p.1 acc).getD []))
        acc) ts

/-- The outer loop of `quiz.py` lines 111-116: run `scoreRound` for each
round in `1..n`. -/
def scoreRounds (names : Names) (inputs : Nat → Nat → Option Nat) (n : Nat)
    (ts : Scores) : Scores :=
  (List.range' 1 n).foldl (fun acc r => scoreRound names inputs r acc) ts

/-- The Team Scores tab (`quiz.py` lines 100-118): store the round-count
widget value, initialize missing score dictionaries, then run the score-entry
loop for rounds `1..numRounds`. -/
def teamScoresTab (s : QuizState) (numRounds : Nat)
    (inputs : Nat → Nat → Option Nat) : QuizState :=
  { s with
    num_rounds := numRounds,
    team_scores :=
      scoreRounds s.team_names inputs numRounds
        (initScores s.team_names s.team_scores) }

/-- The totals dictionary of the Summary tab (`quiz.py` lines 125-127):
`total_scores[tid] = sum(scores.values())`, built in `team_scores` iteration
order. -/
def total_scores (s : QuizState) : List (Nat × Nat) :=
  s.team_scores.map (fun p => (p.1, (p.2.map Prod.snd).sum))

/-- The comparison used on `quiz.py` line 130: `key=lambda x: x[1],
reverse=True` ranks `a` strictly before `b` when `a` has the larger total. -/
def scoreDescLt (a b : Nat × Nat) : Bool := decide (b.2 < a.2)

/-- `sorted_scores` (`quiz.py` line 130): the totals sorted descending by
total; Python's `sorted` is stable, so ties keep dictionary order. -/
def sorted_scores (s : QuizState) : List (Nat × Nat) :=
  stableSort scoreDescLt (total_scores s)

/-- The winner announcement (`quiz.py` lines 135-137): the team name looked
up for the first entry of `sorted_scores`, when that list is nonempty
(`none` embeds both "no scores" and a failing name lookup / `KeyError`). -/
def winner (s : QuizState) : Option String :=
  match sorted_scores s with
  | [] => none
  | p :: _ => alistGet p.1 s.team_names

/-- The whole application state: the in-session quiz state, the files in
`MUSIC_FOLDER`, and the contents of the persisted data file. -/
structure AppState where
  quiz : QuizState
  musicFiles : List String
  dataFile : Option QuizState
  deriving DecidableEq

/-- The "Reset Quiz" button handler (`quiz.py` lines 43-53): replace the
session state with the default dictionary and delete every file in the
music folder.  It does not touch the data file. -/
def resetHandler (a : AppState) : AppState :=
  { quiz := defaultQuizState, musicFiles := [], dataFile := a.dataFile }

/-- "No user edit" input profiles: every widget is left at its default. -/
def noNameIn : Nat → Option String := fun _ => none

def noScoreIn : Nat → Nat → Option Nat := fun _ _ => none

/-- One interaction rerun, at the session level: Streamlit re-executes the
whole script, so the Team Setup tab and then the Team Scores tab both run,
whichever tab is displayed. -/
def rerun (s : QuizState) (nT nR : Nat) (nameIn : Nat → Option String)
    (scoreIn : Nat → Nat → Option Nat) : QuizState :=
  teamScoresTab (teamSetupTab s nT nameIn) nR scoreIn

/-- One full script execution (`quiz.py` top to bottom) for an existing
session: the reset handler runs when its button was the clicked widget, then
every tab block executes — the Music tab touches neither the quiz state nor
the data file, the Team Setup tab saves (line 98), and the Team Scores tab
saves again (line 118). -/
def scriptRun (a : AppState) (resetClicked : Bool) (nT nR : Nat)
    (nameIn : Nat → Option String) (scoreIn : Nat → Nat → Option Nat) : AppState :=
  let a1 := if resetClicked then resetHandler a else a
  let q2 := teamSetupTab a1.quiz nT nameIn
  let q3 := teamScoresTab q2 nR scoreIn
  { a1 with quiz := q3, dataFile := save_quiz_data q3 }

/-- The score a team's widget displays for one round (`quiz.py` line 115's
default): `team_scores.get(t, {}).get(r, 0)`. -/
def effectiveScore (ts : Scores) (t r : Nat) : Nat :=
  (alistGet r ((alistGet t ts).getD [])).getD 0

/-- The entry stored for team `t` and round `r`, when present. -/
def storedScore (ts : Scores) (t r : Nat) : Option Nat :=
  alistGet r ((alistGet t ts).getD [])

/-- Every team id with a score entry also has a name entry, so the Summary
tab's `team_names[team_id]` lookups cannot raise `KeyError`. -/
abbrev scoresSubNames (s : QuizState) : Prop :=
  ∀ p ∈ s.team_scores, (alistGet p.1 s.team_names).isSome = true

theorem alistGet_cons {α : Type} (k : Nat) (p : Nat × α) (rest : List (Nat × α)) :
    alistGet k (p :: rest) = if p.1 = k then some p.2 else alistGet k rest := rfl

theorem alistSet_cons {α : Type} (k : Nat) (v : α) (p : Nat × α) (rest : List (Nat × α)) :
    alistSet k v (p :: rest) = if p.1 = k then (k, v) :: rest else p :: alistSet k v rest := rfl

theorem alistGet_set_self {α : Type} (k : Nat) (v : α) (l : List (Nat × α)) :
    alistGet k (alistSet k v l) = some v := by
  induction l with
  | nil => simp [alistGet, alistSet]
  | cons p rest ih =>
    by_cases h : p.1 = k
    · simp [alistSet, h, alistGet]
    · simp [alistSet, h, alistGet, ih]

theorem alistGet_set_ne {α : Type} (k k' : Nat) (v : α) (l : List (Nat × α))
    (h : k' ≠ k) : alistGet k' (alistSet k v l) = alistGet k' l := by
  induction l with
  | nil =>
    have h' : k ≠ k' := fun hh => h hh.symm
    simp [alistGet, alistSet, h']
  | cons p rest ih =>
    by_cases hp : p.1 = k
    · have h' : k ≠ k' := fun hh => h hh.symm
      have hp' : ¬ p.1 = k' := by rw [hp]; exact h'
      simp [alistSet, hp, alistGet, h', hp']
    · by_cases hq : p.1 = k'
      · rw [alistSet_cons, if_neg hp, alistGet_cons, if_pos hq, alistGet_cons, if_pos hq]
      · rw [alistSet_cons, if_neg hp, alistGet_cons, if_neg hq, alistGet_cons, if_neg hq, ih]

theorem alistGet_set_isSome {α : Type} (k k' : Nat) (v : α) (l : List (Nat × α))
    (h : (alistGet k' l).isSome = true) :
    (alistGet k' (alistSet k v l)).isSome = true := by
  by_cases hk : k' = k
  · subst hk; rw [alistGet_set_self]; rfl
  · rw [alistGet_set_ne k k' v l hk]; exact h

theorem alistSet_append {α : Type} (k : Nat) (v : α) (l : List (Nat × α))
    (h : alistGet k l = none) : alistSet k v l = l ++ [(k, v)] := by
  induction l with
  | nil => simp [alistSet]
  | cons p rest ih =>
    by_cases hp : p.1 = k
    · simp [alistGet, hp] at h
    · simp only [alistGet, hp, if_false] at h
      simp [alistSet, hp, ih h]

theorem mem_alistSet {α : Type} (k : Nat) (v : α) (l : List (Nat × α)) (q : Nat × α)
    (h : q ∈ alistSet k v l) : q = (k, v) ∨ q ∈ l := by
  induction l with
  | nil =>
    simp only [alistSet, List.mem_singleton] at h
    exact Or.inl h
  | cons p rest ih =>
    by_cases hp : p.1 = k
    · rw [alistSet_cons, if_pos hp, List.mem_cons] at h
      rcases h with h | h
      · exact Or.inl h
      · exact Or.inr (List.mem_cons_of_mem _ h)
    · rw [alistSet_cons, if_neg hp, List.mem_cons] at h
      rcases h with h | h
      · exact Or.inr (by simp [h])
      · rcases ih h with h' | h'
        · exact Or.inl h'
        · exact Or.inr (List.mem_cons_of_mem _ h')

theorem nodupKeys_alistSet {α : Type} (k : Nat) (v : α) (l : List (Nat × α))
    (h : NodupKeys l) : NodupKeys (alistSet k v l) := by
  induction l with
  | nil => simp [alistSet, NodupKeys]
  | cons p rest ih =>
    rcases (List.pairwise_cons.1 h) with ⟨h1, h2⟩
    by_cases hp : p.1 = k
    · have : NodupKeys ((k, v) :: rest) := by
        refine List.pairwise_cons.2 ⟨?_, h2⟩
        intro q hq
        have := h1 q hq
        simpa [hp] using this
      simpa [alistSet, hp] using this
    · have : NodupKeys (p :: alistSet k v rest) := by
        refine List.pairwise_cons.2 ⟨?_, ih h2⟩
        intro q hq
        rcases mem_alistSet k v rest q hq with h' | h'
        · rw [h']; exact hp
        · exact h1 q h'
      simpa [alistSet, hp] using this

theorem alistGet_eq_some_mem {α : Type} {k : Nat} {v : α} {l : List (Nat × α)}
    (h : alistGet k l = some v) : (k, v) ∈ l := by
  induction l with
  | nil => simp [alistGet] at h
  | cons p rest ih =>
    by_cases hp : p.1 = k
    · rw [alistGet_cons, if_pos hp, Option.some.injEq] at h
      have : p = (k, v) := Prod.ext hp h
      simp [← this]
    · rw [alistGet_cons, if_neg hp] at h
      exact List.mem_cons_of_mem _ (ih h)

theorem mem_fst_isSome {α : Type} {k : Nat} {l : List (Nat × α)}
    (h : k ∈ l.map Prod.fst) : (alistGet k l).isSome = true := by
  induction l with
  | nil => simp at h
  | cons p rest ih =>
    by_cases hp : p.1 = k
    · simp [alistGet, hp]
    · simp only [List.map_cons, List.mem_cons] at h
      rcases h with h | h
      · exact absurd h.symm hp
      · simp only [alistGet, hp, if_neg hp]
        exact ih h

theorem isSome_mem_fst {α : Type} {k : Nat} {l : List (Nat × α)}
    (h : (alistGet k l).isSome = true) : k ∈ l.map Prod.fst := by
  induction l with
  | nil => simp [alistGet] at h
  | cons p rest ih =>
    by_cases hp : p.1 = k
    · simp [hp.symm]
    · simp only [alistGet, hp, if_neg hp] at h
      simp only [List.map_cons, List.mem_cons]
      exact Or.inr (ih h)

theorem alistGet_map_value {α β : Type} (g : α → β) (k : Nat) (l : List (Nat × α)) :
    alistGet k (l.map (fun p => (p.1, g p.2))) = (alistGet k l).map g := by
  induction l with
  | nil => simp [alistGet]
  | cons p rest ih =>
    by_cases hp : p.1 = k
    · simp [alistGet, hp]
    · simp [alistGet, hp, ih]

theorem alistGet_map_key_none {β : Type} (j : Nat) (l : List Nat) (f : Nat → β)
    (h : j ∉ l) : alistGet j (l.map (fun r => (r, f r))) = none := by
  induction l with
  | nil => simp [alistGet]
  | cons r rest ih =>
    have hr : r ≠ j := fun hh => h (by simp [hh])
    have hrest : j ∉ rest := fun hh => h (List.mem_cons_of_mem _ hh)
    simp [alistGet, hr, ih hrest]

theorem mem_insertSorted {α : Type} (lt : α → α → Bool) (p x : α) (l : List α) :
    x ∈ insertSorted lt p l ↔ x = p ∨ x ∈ l := by
  induction l with
  | nil => simp [insertSorted]
  | cons q rest ih =>
    by_cases h : lt q p
    · simp only [insertSorted, if_pos h, List.mem_cons, ih]
      tauto
    · simp only [insertSorted, if_neg h, List.mem_cons]

theorem mem_stableSort {α : Type} (lt : α → α → Bool) (x : α) (l : List α) :
    x ∈ stableSort lt l ↔ x ∈ l := by
  induction l with
  | nil => simp [stableSort]
  | cons p rest ih =>
    simp only [stableSort, mem_insertSorted, List.mem_cons, ih]

theorem pairwise_insertSorted {α : Type} {R : α → α → Prop} (lt : α → α → Bool)
    (p : α) (l : List α)
    (hl : l.Pairwise R)
    (hskip : ∀ q, lt q p = true → R q p)
    (hins : ∀ q ∈ l, lt q p = false → R p q)
    (hRlt : ∀ a b, R a b → lt b a = false)
    (hneg : ∀ a b c, lt b a = false → lt c b = false → lt c a = false) :
    (insertSorted lt p l).Pairwise R := by
  induction l with
  | nil => simp [insertSorted]
  | cons q rest ih =>
    rcases (List.pairwise_cons.1 hl) with ⟨h1, h2⟩
    by_cases h : lt q p
    · rw [insertSorted, if_pos h]
      refine List.pairwise_cons.2 ⟨?_, ?_⟩
      · intro x hx
        rcases (mem_insertSorted lt p x rest).1 hx with hx | hx
        · rw [hx]; exact hskip q h
        · exact h1 x hx
      · exact ih h2 (fun x hx hlt => hins x (List.mem_cons_of_mem _ hx) hlt)
    · rw [insertSorted, if_neg h]
      refine List.pairwise_cons.2 ⟨?_, hl⟩
      intro x hx
      rcases List.mem_cons.1 hx with hx | hx
      · rw [hx]
        exact hins q (List.mem_cons_self _ _) (by simpa using h)
      · have hxq : lt x q = false := hRlt q x (h1 x hx)
        have hxp : lt x p = false := hneg p q x (by simpa using h) hxq
        exact hins x (List.mem_cons_of_mem _ hx) hxp

theorem pairwise_stableSort {α : Type} {R : α → α → Prop} (lt : α → α → Bool)
    (l : List α)
    (horig : l.Pairwise (fun a b => lt b a = false → R a b))
    (hskip : ∀ a b, lt a b = true → R a b)
    (hRlt : ∀ a b, R a b → lt b a = false)
    (hneg : ∀ a b c, lt b a = false → lt c b = false → lt c a = false) :
    (stableSort lt l).Pairwise R := by
  induction l with
  | nil => simp [stableSort]
  | cons p rest ih =>
    rcases (List.pairwise_cons.1 horig) with ⟨h1, h2⟩
    rw [stableSort]
    refine pairwise_insertSorted lt p (stableSort lt rest) (ih h2) ?_ ?_ hRlt hneg
    · intro q hq; exact hskip q p hq
    · intro q hq hlt
      exact h1 q ((mem_stableSort lt q rest).1 hq) hlt

theorem setupNames_succ (inputs : Nat → Option String) (n : Nat) (ns : Names) :
    setupNames inputs (n + 1) ns =
      alistSet (1 + n)
        ((inputs (1 + n)).getD (defaultName (setupNames inputs n ns) (1 + n)))
        (setupNames inputs n ns) := by
  unfold setupNames
  rw [List.range'_1_concat, List.foldl_append]
  rfl

theorem setupNames_get_out (inputs : Nat → Option String) (n : Nat) (ns : Names)
    (i : Nat) (h : ¬ (1 ≤ i ∧ i ≤ n)) :
    alistGet i (setupNames inputs n ns) = alistGet i ns := by
  induction n with
  | zero => rfl
  | succ n ih =>
    rw [setupNames_succ]
    have hne : i ≠ 1 + n := by omega
    rw [alistGet_set_ne _ _ _ _ hne]
    exact ih (by omega)

theorem setupNames_get_in (inputs : Nat → Option String) (n : Nat) (ns : Names)
    (i : Nat) (h1 : 1 ≤ i) (h2 : i ≤ n) :
    alistGet i (setupNames inputs n ns) =
      some ((inputs i).getD ((alistGet i ns).getD ("Team " ++ toString i))) := by
  induction n with
  | zero => omega
  | succ n ih =>
    rw [setupNames_succ]
    by_cases hi : i = 1 + n
    · subst hi
      rw [alistGet_set_self]
      unfold defaultName
      rw [setupNames_get_out inputs n ns _ (by omega)]
    · rw [alistGet_set_ne _ _ _ _ hi]
      exact ih (by omega)

theorem setupNames_preserve_some (n : Nat) (ns : Names) (i : Nat) (v : String)
    (h : alistGet i ns = some v) :
    alistGet i (setupNames noNameIn n ns) = some v := by
  by_cases hin : 1 ≤ i ∧ i ≤ n
  · rw [setupNames_get_in noNameIn n ns i hin.1 hin.2, h]
    rfl
  · rw [setupNames_get_out noNameIn n ns i hin]
    exact h

theorem setupNames_isSome (inputs : Nat → Option String) (n : Nat) (ns : Names)
    (i : Nat) (h : (alistGet i ns).isSome = true) :
    (alistGet i (setupNames inputs n ns)).isSome = true := by
  by_cases hin : 1 ≤ i ∧ i ≤ n
  · rw [setupNames_get_in inputs n ns i hin.1 hin.2]
    rfl
  · rw [setupNames_get_out inputs n ns i hin]
    exact h

theorem nodupKeys_setupNames (inputs : Nat → Option String) (n : Nat) (ns : Names)
    (h : NodupKeys ns) : NodupKeys (setupNames inputs n ns) := by
  induction n with
  | zero => exact h
  | succ n ih =>
    rw [setupNames_succ]
    exact nodupKeys_alistSet _ _ _ ih

theorem initScores_cons (p : Nat × String) (rest : Names) (ts : Scores) :
    initScores (p :: rest) ts =
      initScores rest (if (alistGet p.1 ts).isSome then ts else alistSet p.1 [] ts) := rfl

theorem initScores_preserve_some (names : Names) (ts : Scores) (k : Nat)
    (m : RoundScores) (h : alistGet k ts = some m) :
    alistGet k (initScores names ts) = some m := by
  induction names generalizing ts with
  | nil => exact h
  | cons p rest ih =>
    rw [initScores_cons]
    apply ih
    by_cases hs : (alistGet p.1 ts).isSome
    · rw [if_pos hs]; exact h
    · rw [if_neg hs]
      have hne : k ≠ p.1 := by
        intro hk
        rw [← hk, h] at hs
        exact hs rfl
      rw [alistGet_set_ne _ _ _ _ hne]
      exact h

theorem initScores_isSome_mono (names : Names) (ts : Scores) (k : Nat)
    (h : (alistGet k ts).isSome = true) :
    (alistGet k (initScores names ts)).isSome = true := by
  obtain ⟨m, hm⟩ := Option.isSome_iff_exists.1 h
  rw [initScores_preserve_some names ts k m hm]
  rfl

theorem initScores_fresh (names : Names) (ts : Scores) (k : Nat)
    (hk : k ∈ names.map Prod.fst) (h : (alistGet k ts).getD [] = []) :
    alistGet k (initScores names ts) = some [] := by
  induction names generalizing ts with
  | nil => simp at hk
  | cons p rest ih =>
    rw [initScores_cons]
    by_cases hp : p.1 = k
    · by_cases hs : (alistGet p.1 ts).isSome
      · have hksome : (alistGet k ts).isSome = true := by rw [← hp]; exact hs
        obtain ⟨m, hm⟩ := Option.isSome_iff_exists.1 hksome
        have hm0 : m = [] := by rw [hm] at h; simpa using h
        apply initScores_preserve_some
        rw [if_pos hs, hm, hm0]
      · rw [if_neg hs]
        apply initScores_preserve_some
        rw [← hp, alistGet_set_self]
    · have hk2 := hk
      rw [List.map_cons] at hk2
      have hk' : k ∈ rest.map Prod.fst := by
        rcases List.mem_cons.1 hk2 with h' | h'
        · exact absurd h'.symm hp
        · exact h'
      by_cases hs : (alistGet p.1 ts).isSome
      · rw [if_pos hs]
        exact ih _ hk' h
      · rw [if_neg hs]
        apply ih _ hk'
        have hne : k ≠ p.1 := fun hh => hp hh.symm
        rw [alistGet_set_ne _ _ _ _ hne]
        exact h

theorem initScores_inv (names : Names) (ts : Scores) (k : Nat)
    (h : (alistGet k (initScores names ts)).isSome = true) :
    (alistGet k ts).isSome = true ∨ k ∈ names.map Prod.fst := by
  induction names generalizing ts with
  | nil => exact Or.inl h
  | cons p rest ih =>
    rw [initScores_cons] at h
    rcases ih _ h with hstep | hmem
    · by_cases hs : (alistGet p.1 ts).isSome
      · rw [if_pos hs] at hstep
        exact Or.inl hstep
      · rw [if_neg hs] at hstep
        by_cases hp : k = p.1
        · right; simp [hp]
        · rw [alistGet_set_ne _ _ _ _ hp] at hstep
          exact Or.inl hstep
    · right; simp [hmem]

theorem scoreRound_cons (inputs : Nat → Nat → Option Nat) (r : Nat)
    (p : Nat × String) (rest : Names) (ts : Scores) :
    scoreRound (p :: rest) inputs r ts =
      scoreRound rest inputs r
        (alistSet p.1
          (alistSet r
            ((inputs p.1 r).getD ((alistGet r ((alistGet p.1 ts).getD [])).getD 0))
            ((alistGet p.1 ts).getD []))
          ts) := rfl

theorem scoreRound_get_out (names : Names) (inputs : Nat → Nat → Option Nat)
    (r : Nat) (ts : Scores) (k : Nat) (hk : k ∉ names.map Prod.fst) :
    alistGet k (scoreRound names inputs r ts) = alistGet k ts := by
  induction names generalizing ts with
  | nil => rfl
  | cons p rest ih =>
    have hp : k ≠ p.1 := fun h => hk (by simp [h])
    have hrest : k ∉ rest.map Prod.fst := fun h => hk (by simp [h])
    rw [scoreRound_cons, ih _ hrest, alistGet_set_ne _ _ _ _ hp]

theorem scoreRound_get_mem (names : Names) (inputs : Nat → Nat → Option Nat)
    (r : Nat) (ts : Scores) (k : Nat) (m : RoundScores) (hnd : NodupKeys names)
    (hk : k ∈ names.map Prod.fst) (h : alistGet k ts = some m) :
    alistGet k (scoreRound names inputs r ts) =
      some (alistSet r ((inputs k r).getD ((alistGet r m).getD 0)) m) := by
  induction names generalizing ts with
  | nil => simp at hk
  | cons p rest ih =>
    rcases List.pairwise_cons.1 hnd with ⟨h1, h2⟩
    by_cases hp : p.1 = k
    · have hrest : k ∉ rest.map Prod.fst := by
        intro hm
        obtain ⟨q, hq, hq2⟩ := List.mem_map.1 hm
        exact (h1 q hq) (by rw [hp, ← hq2])
      rw [scoreRound_cons, scoreRound_get_out rest inputs r _ k hrest, hp, h,
        alistGet_set_self]
      rfl
    · have hk2 := hk
      rw [List.map_cons] at hk2
      have hk' : k ∈ rest.map Prod.fst := by
        rcases List.mem_cons.1 hk2 with h' | h'
        · exact absurd h'.symm hp
        · exact h'
      rw [scoreRound_cons]
      refine ih _ h2 hk' ?_
      have hne : k ≠ p.1 := fun hh => hp hh.symm
      rw [alistGet_set_ne _ _ _ _ hne]
      exact h

theorem scoreRound_isSome_mono (names : Names) (inputs : Nat → Nat → Option Nat)
    (r : Nat) (ts : Scores) (k : Nat) (h : (alistGet k ts).isSome = true) :
    (alistGet k (scoreRound names inputs r ts)).isSome = true := by
  induction names generalizing ts with
  | nil => exact h
  | cons p rest ih =>
    rw [scoreRound_cons]
    exact ih _ (alistGet_set_isSome _ _ _ _ h)

theorem scoreRound_inv (names : Names) (inputs : Nat → Nat → Option Nat)
    (r : Nat) (ts : Scores) (k : Nat)
    (h : (alistGet k (scoreRound names inputs r ts)).isSome = true) :
    (alistGet k ts).isSome = true ∨ k ∈ names.map Prod.fst := by
  induction names generalizing ts with
  | nil => exact Or.inl h
  | cons p rest ih =>
    rw [scoreRound_cons] at h
    rcases ih _ h with hstep | hmem
    · by_cases hp : k = p.1
      · right; simp [hp]
      · rw [alistGet_set_ne _ _ _ _ hp] at hstep
        exact Or.inl hstep
    · right; simp [hmem]

theorem scoreRounds_succ (names : Names) (inputs : Nat → Nat → Option Nat)
    (n : Nat) (ts : Scores) :
    scoreRounds names inputs (n + 1) ts =
      scoreRound names inputs (1 + n) (scoreRounds names inputs n ts) := by
  unfold scoreRounds
  rw [List.range'_1_concat, List.foldl_append]
  rfl

theorem scoreRounds_fresh (names : Names) (inputs : Nat → Nat → Option Nat)
    (n : Nat) (ts : Scores) (k : Nat) (hnd : NodupKeys names)
    (hk : k ∈ names.map Prod.fst) (h : alistGet k ts = some []) :
    alistGet k (scoreRounds names inputs n ts) =
      some ((List.range' 1 n).map (fun r => (r, (inputs k r).getD 0))) := by
  induction n with
  | zero => exact h
  | succ n ih =>
    rw [scoreRounds_succ]
    rw [scoreRound_get_mem names inputs (1 + n) _ k _ hnd hk ih]
    have hout : (1 + n) ∉ List.range' 1 n := by
      intro hmem
      rw [List.mem_range'_1] at hmem
      omega
    rw [alistGet_map_key_none _ _ _ hout]
    rw [alistSet_append _ _ _ (alistGet_map_key_none _ _ _ hout)]
    rw [List.range'_1_concat, List.map_append]
    rfl

theorem scoreRound_effective_default (names : Names) (r : Nat) (ts : Scores)
    (t r' : Nat) :
    effectiveScore (scoreRound names noScoreIn r ts) t r' = effectiveScore ts t r' := by
  induction names generalizing ts with
  | nil => rfl
  | cons p rest ih =>
    rw [scoreRound_cons, ih]
    unfold effectiveScore
    by_cases hp : t = p.1
    · rw [← hp, alistGet_set_self]
      simp only [Option.getD_some]
      by_cases hr : r' = r
      · rw [hr, alistGet_set_self]
        rfl
      · rw [alistGet_set_ne _ _ _ _ hr]
    · rw [alistGet_set_ne _ _ _ _ hp]

theorem initScores_effective (names : Names) (ts : Scores) (t r : Nat) :
    effectiveScore (initScores names ts) t r = effectiveScore ts t r := by
  induction names generalizing ts with
  | nil => rfl
  | cons p rest ih =>
    rw [initScores_cons, ih]
    by_cases hs : (alistGet p.1 ts).isSome
    · rw [if_pos hs]
    · rw [if_neg hs]
      unfold effectiveScore
      by_cases hp : t = p.1
      · rw [← hp] at hs
        rw [← hp, alistGet_set_self]
        rcases Option.not_isSome_iff_eq_none.1 hs with hnone
        rw [hnone]
        rfl
      · rw [alistGet_set_ne _ _ _ _ hp]

theorem scoreRounds_effective_default (names : Names) (n : Nat) (ts : Scores)
    (t r : Nat) :
    effectiveScore (scoreRounds names noScoreIn n ts) t r = effectiveScore ts t r := by
  induction n with
  | zero => rfl
  | succ n ih =>
    rw [scoreRounds_succ, scoreRound_effective_default, ih]

theorem scoreRound_stored_default (names : Names) (r : Nat) (ts : Scores)
    (t r' : Nat) (w : Nat) (h : storedScore ts t r' = some w) :
    storedScore (scoreRound names noScoreIn r ts) t r' = some w := by
  induction names generalizing ts with
  | nil => exact h
  | cons p rest ih =>
    rw [scoreRound_cons]
    apply ih
    unfold storedScore at h ⊢
    by_cases hp : t = p.1
    · rw [← hp, alistGet_set_self]
      simp only [Option.getD_some]
      by_cases hr : r' = r
      · rw [hr, alistGet_set_self]
        rw [hr] at h
        rw [h]
        rfl
      · rw [alistGet_set_ne _ _ _ _ hr]
        exact h
    · rw [alistGet_set_ne _ _ _ _ hp]
      exact h

theorem initScores_stored (names : Names) (ts : Scores) (t r : Nat) (w : Nat)
    (h : storedScore ts t r = some w) :
    storedScore (initScores names ts) t r = some w := by
  have hsome : (alistGet t ts).isSome = true := by
    unfold storedScore at h
    by_cases hs : (alistGet t ts).isSome
    · exact hs
    · rcases Option.not_isSome_iff_eq_none.1 hs with hnone
      rw [hnone] at h
      simp [alistGet] at h
  obtain ⟨m, hm⟩ := Option.isSome_iff_exists.1 hsome
  unfold storedScore at h ⊢
  rw [initScores_preserve_some names ts t m hm]
  rw [hm] at h
  exact h

theorem scoreRounds_stored_default (names : Names) (n : Nat) (ts : Scores)
    (t r : Nat) (w : Nat) (h : storedScore ts t r = some w) :
    storedScore (scoreRounds names noScoreIn n ts) t r = some w := by
  induction n generalizing ts with
  | zero => exact h
  | succ n ih =>
    rw [scoreRounds_succ]
    exact scoreRound_stored_default _ _ _ _ _ _ (ih _ h)

theorem scoreRounds_isSome_mono (names : Names) (inputs : Nat → Nat → Option Nat)
    (n : Nat) (ts : Scores) (k : Nat) (h : (alistGet k ts).isSome = true) :
    (alistGet k (scoreRounds names inputs n ts)).isSome = true := by
  induction n with
  | zero => exact h
  | succ n ih =>
    rw [scoreRounds_succ]
    exact scoreRound_isSome_mono _ _ _ _ _ ih

theorem scoreRounds_inv (names : Names) (inputs : Nat → Nat → Option Nat)
    (n : Nat) (ts : Scores) (k : Nat)
    (h : (alistGet k (scoreRounds names inputs n ts)).isSome = true) :
    (alistGet k ts).isSome = true ∨ k ∈ names.map Prod.fst := by
  induction n with
  | zero => exact Or.inl h
  | succ n ih =>
    rw [scoreRounds_succ] at h
    rcases scoreRound_inv _ _ _ _ _ h with h' | h'
    · exact ih h'
    · exact Or.inr h'

theorem pairwise_of_forall {α : Type} {R : α → α → Prop} (h : ∀ a b, R a b)
    (l : List α) : l.Pairwise R := by
  induction l with
  | nil => exact List.Pairwise.nil
  | cons p rest ih => exact List.pairwise_cons.2 ⟨fun x _ => h p x, ih⟩

theorem scoreDescLt_false {a b : Nat × Nat} (h : scoreDescLt b a = false) :
    b.2 ≤ a.2 := by
  have := of_decide_eq_false h
  omega

theorem scoreDescLt_of_le {a b : Nat × Nat} (h : b.2 ≤ a.2) :
    scoreDescLt b a = false :=
  decide_eq_false (by omega)

theorem sorted_scores_nonincreasing (s : QuizState) :
    (sorted_scores s).Pairwise (fun a b => b.2 ≤ a.2) := by
  refine pairwise_stableSort scoreDescLt (total_scores s) ?_ ?_ ?_ ?_
  · exact @pairwise_of_forall _ (fun a b => scoreDescLt b a = false → b.2 ≤ a.2)
      (fun a b h => scoreDescLt_false h) _
  · intro a b h
    have := of_decide_eq_true h
    omega
  · intro a b h
    exact scoreDescLt_of_le h
  · intro a b c h1 h2
    have g1 := of_decide_eq_false h1
    have g2 := of_decide_eq_false h2
    exact decide_eq_false (by omega)

theorem sorted_scores_stable_ties (s : QuizState)
    (hasc : s.team_scores.Pairwise (fun a b => a.1 < b.1)) :
    (sorted_scores s).Pairwise
      (fun a b => b.2 ≤ a.2 ∧ (a.2 = b.2 → a.1 < b.1)) := by
  have htot : (total_scores s).Pairwise (fun a b => a.1 < b.1) := by
    unfold total_scores
    exact List.Pairwise.map _ (fun a b h => h) hasc
  refine pairwise_stableSort scoreDescLt (total_scores s) ?_ ?_ ?_ ?_
  · exact htot.imp (fun hab hlt => ⟨scoreDescLt_false hlt, fun _ => hab⟩)
  · intro a b h
    have := of_decide_eq_true h
    exact ⟨by omega, fun he => absurd he (by omega)⟩
  · intro a b h
    exact scoreDescLt_of_le h.1
  · intro a b c h1 h2
    have g1 := of_decide_eq_false h1
    have g2 := of_decide_eq_false h2
    exact decide_eq_false (by omega)

/-- C1: the spec's track-ordering example evaluated on the code.  The sort
key of `quiz.py` line 79 searches the whole basename for a digit, so
`"intro.mp3"` is keyed by the `3` of its `.mp3` extension and the example
sorts to `["track2.mp3", "intro.mp3", "track10.mp3"]`, not the claimed
`["track2.mp3", "track10.mp3", "intro.mp3"]`; a filename containing no
digit at all (possible for `.wav` uploads) makes the key expression
evaluate `int(float('inf'))`, which raises `OverflowError` (embedded as
`none`) instead of sorting last. -/
theorem quiz_C1_divergence :
    music_files_sorted ["track2.mp3", "track10.mp3", "intro.mp3"] =
      some ["track2.mp3", "intro.mp3", "track10.mp3"]
    ∧ music_files_sorted ["track2.wav", "track10.wav", "intro.wav"] = none := by
  constructor
  · rfl
  · rfl

/-- C2: saving any valid quiz state (at least one team and one round) and
then loading returns the same state: the persisted blob round-trips. -/
theorem quiz_C2_save_load_roundtrip (s : QuizState)
    (h1 : 1 ≤ s.num_teams) (h2 : 1 ≤ s.num_rounds) :
    load_quiz_data (save_quiz_data s) = s := rfl

theorem quiz_C2_witness :
    1 ≤ (QuizState.mk [(1, "A"), (2, "B")] [(1, [(1, 3)])] 2 5).num_teams
    ∧ 1 ≤ (QuizState.mk [(1, "A"), (2, "B")] [(1, [(1, 3)])] 2 5).num_rounds
    ∧ load_quiz_data (save_quiz_data (QuizState.mk [(1, "A"), (2, "B")] [(1, [(1, 3)])] 2 5)) =
        QuizState.mk [(1, "A"), (2, "B")] [(1, [(1, 3)])] 2 5 :=
  ⟨by decide, by decide,
    quiz_C2_save_load_roundtrip (QuizState.mk [(1, "A"), (2, "B")] [(1, [(1, 3)])] 2 5)
      (by decide) (by decide)⟩

/-- C4: when no persisted state file exists, `load_quiz_data` returns the
default state (empty name and score dictionaries, one team, five rounds)
rather than failing: a missing file is the first-run case. -/
theorem quiz_C4_first_run_default :
    load_quiz_data none =
      { team_names := [], team_scores := [], num_teams := 1, num_rounds := 5 } := rfl

/-- C5: the reset handler replaces the session state with the default state
(one team, five rounds, empty dictionaries) and deletes every music file, so
the track list afterwards is empty. -/
theorem quiz_C5_reset (a : AppState) :
    (resetHandler a).quiz =
        { team_names := [], team_scores := [], num_teams := 1, num_rounds := 5 }
    ∧ (resetHandler a).musicFiles = []
    ∧ music_files_sorted (resetHandler a).musicFiles = some [] :=
  ⟨rfl, rfl, rfl⟩

theorem alistGet_total_scores (s : QuizState) (k : Nat) :
    alistGet k (total_scores s) =
      (alistGet k s.team_scores).map (fun m => (m.map Prod.snd).sum) := by
  unfold total_scores
  exact alistGet_map_value (fun m => (m.map Prod.snd).sum) k s.team_scores

/-- C3: after a score-entry pass for rounds `1..n` over a team with no
previously stored scores, the Summary total of that team is exactly the sum
of the entered round scores (an unedited widget enters its default `0`), and
the displayed ranking is sorted in non-increasing order of total. -/
theorem quiz_C3_totals_and_ranking (s : QuizState) (n : Nat)
    (inputs : Nat → Nat → Option Nat) (tid : Nat)
    (hnd : NodupKeys s.team_names) (hmem : tid ∈ s.team_names.map Prod.fst)
    (hfresh : (alistGet tid s.team_scores).getD [] = []) :
    alistGet tid (total_scores (teamScoresTab s n inputs)) =
      some (((List.range' 1 n).map (fun r => (inputs tid r).getD 0)).sum)
    ∧ (sorted_scores (teamScoresTab s n inputs)).Pairwise (fun a b => b.2 ≤ a.2) := by
  constructor
  · have hinit : alistGet tid (initScores s.team_names s.team_scores) = some [] :=
      initScores_fresh _ _ _ hmem hfresh
    have hstored : alistGet tid (teamScoresTab s n inputs).team_scores =
        some ((List.range' 1 n).map (fun r => (r, (inputs tid r).getD 0))) :=
      scoreRounds_fresh _ _ _ _ _ hnd hmem hinit
    rw [alistGet_total_scores, hstored]
    show some ((((List.range' 1 n).map (fun r => (r, (inputs tid r).getD 0))).map Prod.snd).sum) =
      some (((List.range' 1 n).map (fun r => (inputs tid r).getD 0)).sum)
    rw [List.map_map]
    rfl
  · exact sorted_scores_nonincreasing _

theorem quiz_C3_witness :
    NodupKeys (QuizState.mk [(1, "A"), (2, "B")] [] 2 5).team_names
    ∧ 1 ∈ (QuizState.mk [(1, "A"), (2, "B")] [] 2 5).team_names.map Prod.fst
    ∧ (alistGet 1 (QuizState.mk [(1, "A"), (2, "B")] [] 2 5).team_scores).getD [] = []
    ∧ (alistGet 1 (total_scores (teamScoresTab (QuizState.mk [(1, "A"), (2, "B")] [] 2 5) 2
          (fun t r => some (t * 10 + r)))) =
        some (((List.range' 1 2).map
          (fun r => ((fun t r => some (t * 10 + r)) 1 r).getD 0)).sum)
      ∧ (sorted_scores (teamScoresTab (QuizState.mk [(1, "A"), (2, "B")] [] 2 5) 2
          (fun t r => some (t * 10 + r)))).Pairwise (fun a b => b.2 ≤ a.2)) :=
  ⟨by decide, by decide, by decide,
    quiz_C3_totals_and_ranking (QuizState.mk [(1, "A"), (2, "B")] [] 2 5) 2
      (fun t r => some (t * 10 + r)) 1 (by decide) (by decide) (by decide)⟩

/-- C6 (amended): for a state with two teams, duplicate-free team ids and no
stale team-3 entry, one interaction that raises the team count to 3 (all
other widgets left at their defaults) adds team 3 named `"Team 3"` with
every round of `1..num_rounds` scored `0`, keeps every existing team-name
entry unchanged, and leaves every team's displayed score for every round
unchanged. -/
theorem quiz_C6_increase_teams (s : QuizState)
    (hnum : s.num_teams = 2)
    (hnd : NodupKeys s.team_names)
    (h3n : alistGet 3 s.team_names = none)
    (h3s : (alistGet 3 s.team_scores).getD [] = []) :
    alistGet 3 (rerun s 3 s.num_rounds noNameIn noScoreIn).team_names = some "Team 3"
    ∧ alistGet 3 (rerun s 3 s.num_rounds noNameIn noScoreIn).team_scores =
        some ((List.range' 1 s.num_rounds).map (fun r => (r, 0)))
    ∧ (∀ i, (alistGet i s.team_names).isSome = true →
        alistGet i (rerun s 3 s.num_rounds noNameIn noScoreIn).team_names =
          alistGet i s.team_names)
    ∧ (∀ t r, effectiveScore (rerun s 3 s.num_rounds noNameIn noScoreIn).team_scores t r =
        effectiveScore s.team_scores t r) := by
  have hname3 : alistGet 3 (setupNames noNameIn 3 s.team_names) = some "Team 3" := by
    rw [setupNames_get_in noNameIn 3 s.team_names 3 (by omega) (by omega), h3n]
    decide
  refine ⟨hname3, ?_, ?_, ?_⟩
  · have hnd' : NodupKeys (setupNames noNameIn 3 s.team_names) :=
      nodupKeys_setupNames _ _ _ hnd
    have hmem3 : 3 ∈ (setupNames noNameIn 3 s.team_names).map Prod.fst :=
      isSome_mem_fst (by rw [hname3]; rfl)
    have hinit : alistGet 3 (initScores (setupNames noNameIn 3 s.team_names) s.team_scores) =
        some [] :=
      initScores_fresh _ _ _ hmem3 h3s
    have hstored : alistGet 3 (rerun s 3 s.num_rounds noNameIn noScoreIn).team_scores =
        some ((List.range' 1 s.num_rounds).map (fun r => (r, (noScoreIn 3 r).getD 0))) :=
      scoreRounds_fresh (setupNames noNameIn 3 s.team_names) noScoreIn s.num_rounds _ 3
        hnd' hmem3 hinit
    rw [hstored]
    simp [noScoreIn]
  · intro i hi
    obtain ⟨v, hv⟩ := Option.isSome_iff_exists.1 hi
    rw [hv]
    exact setupNames_preserve_some 3 s.team_names i v hv
  · intro t r
    have h1 := scoreRounds_effective_default (setupNames noNameIn 3 s.team_names)
      s.num_rounds (initScores (setupNames noNameIn 3 s.team_names) s.team_scores) t r
    have h2 := initScores_effective (setupNames noNameIn 3 s.team_names) s.team_scores t r
    exact h1.trans h2

theorem quiz_C6_witness :
    (QuizState.mk [(1, "A"), (2, "B")] [(1, [(1, 4)])] 2 2).num_teams = 2
    ∧ NodupKeys (QuizState.mk [(1, "A"), (2, "B")] [(1, [(1, 4)])] 2 2).team_names
    ∧ alistGet 3 (QuizState.mk [(1, "A"), (2, "B")] [(1, [(1, 4)])] 2 2).team_names = none
    ∧ (alistGet 3 (QuizState.mk [(1, "A"), (2, "B")] [(1, [(1, 4)])] 2 2).team_scores).getD [] = []
    ∧ (alistGet 3 (rerun (QuizState.mk [(1, "A"), (2, "B")] [(1, [(1, 4)])] 2 2) 3
          (QuizState.mk [(1, "A"), (2, "B")] [(1, [(1, 4)])] 2 2).num_rounds
          noNameIn noScoreIn).team_names = some "Team 3"
      ∧ alistGet 3 (rerun (QuizState.mk [(1, "A"), (2, "B")] [(1, [(1, 4)])] 2 2) 3
          (QuizState.mk [(1, "A"), (2, "B")] [(1, [(1, 4)])] 2 2).num_rounds
          noNameIn noScoreIn).team_scores =
          some ((List.range' 1 (QuizState.mk [(1, "A"), (2, "B")] [(1, [(1, 4)])] 2 2).num_rounds).map
            (fun r => (r, 0)))
      ∧ (∀ i, (alistGet i (QuizState.mk [(1, "A"), (2, "B")] [(1, [(1, 4)])] 2 2).team_names).isSome = true →
          alistGet i (rerun (QuizState.mk [(1, "A"), (2, "B")] [(1, [(1, 4)])] 2 2) 3
            (QuizState.mk [(1, "A"), (2, "B")] [(1, [(1, 4)])] 2 2).num_rounds
            noNameIn noScoreIn).team_names =
            alistGet i (QuizState.mk [(1, "A"), (2, "B")] [(1, [(1, 4)])] 2 2).team_names)
      ∧ (∀ t r, effectiveScore (rerun (QuizState.mk [(1, "A"), (2, "B")] [(1, [(1, 4)])] 2 2) 3
            (QuizState.mk [(1, "A"), (2, "B")] [(1, [(1, 4)])] 2 2).num_rounds
            noNameIn noScoreIn).team_scores t r =
          effectiveScore (QuizState.mk [(1, "A"), (2, "B")] [(1, [(1, 4)])] 2 2).team_scores t r)) :=
  ⟨by decide, by decide, by decide, by decide,
    quiz_C6_increase_teams (QuizState.mk [(1, "A"), (2, "B")] [(1, [(1, 4)])] 2 2)
      (by decide) (by decide) (by decide) (by decide)⟩

/-- C6, original reading refuted: a state can have `num_teams = 2` together
with a stale entry for team id 3 (reachable by raising the count to 3,
renaming, and lowering it again, since lowering removes nothing); raising
the count back to 3 then revives the stale name instead of adding a team
named `"Team 3"`. -/
theorem quiz_C6_counterexample :
    (QuizState.mk [(1, "A"), (2, "B"), (3, "Old")] [] 2 1).num_teams = 2
    ∧ alistGet 3 (rerun (QuizState.mk [(1, "A"), (2, "B"), (3, "Old")] [] 2 1) 3
        (QuizState.mk [(1, "A"), (2, "B"), (3, "Old")] [] 2 1).num_rounds
        noNameIn noScoreIn).team_names = some "Old"
    ∧ (some "Old" : Option String) ≠ some "Team 3" := by
  refine ⟨rfl, by decide, by decide⟩

/-- C7: one interaction that lowers the team count (all other widgets left
at their defaults) removes nothing: every stored team-name entry keeps its
value, every team's score dictionary stays present, and every stored
per-round score keeps its value. -/
theorem quiz_C7_decrease_keeps_entries (s : QuizState) (nT : Nat)
    (hdec : nT < s.num_teams) (nR : Nat) :
    (∀ k v, alistGet k s.team_names = some v →
      alistGet k (rerun s nT nR noNameIn noScoreIn).team_names = some v)
    ∧ (∀ k, (alistGet k s.team_scores).isSome = true →
        (alistGet k (rerun s nT nR noNameIn noScoreIn).team_scores).isSome = true)
    ∧ (∀ t r w, storedScore s.team_scores t r = some w →
        storedScore (rerun s nT nR noNameIn noScoreIn).team_scores t r = some w) := by
  refine ⟨?_, ?_, ?_⟩
  · intro k v hv
    exact setupNames_preserve_some nT s.team_names k v hv
  · intro k hk
    exact scoreRounds_isSome_mono _ noScoreIn nR _ k
      (initScores_isSome_mono _ s.team_scores k hk)
  · intro t r w hw
    exact scoreRounds_stored_default _ nR _ t r w
      (initScores_stored _ s.team_scores t r w hw)

theorem quiz_C7_witness :
    2 < (QuizState.mk [(1, "A"), (2, "B"), (3, "C")] [(1, [(1, 4)]), (3, [(2, 9)])] 3 2).num_teams
    ∧ ((∀ k v, alistGet k (QuizState.mk [(1, "A"), (2, "B"), (3, "C")] [(1, [(1, 4)]), (3, [(2, 9)])] 3 2).team_names = some v →
        alistGet k (rerun (QuizState.mk [(1, "A"), (2, "B"), (3, "C")] [(1, [(1, 4)]), (3, [(2, 9)])] 3 2) 2 2 noNameIn noScoreIn).team_names = some v)
      ∧ (∀ k, (alistGet k (QuizState.mk [(1, "A"), (2, "B"), (3, "C")] [(1, [(1, 4)]), (3, [(2, 9)])] 3 2).team_scores).isSome = true →
          (alistGet k (rerun (QuizState.mk [(1, "A"), (2, "B"), (3, "C")] [(1, [(1, 4)]), (3, [(2, 9)])] 3 2) 2 2 noNameIn noScoreIn).team_scores).isSome = true)
      ∧ (∀ t r w, storedScore (QuizState.mk [(1, "A"), (2, "B"), (3, "C")] [(1, [(1, 4)]), (3, [(2, 9)])] 3 2).team_scores t r = some w →
          storedScore (rerun (QuizState.mk [(1, "A"), (2, "B"), (3, "C")] [(1, [(1, 4)]), (3, [(2, 9)])] 3 2) 2 2 noNameIn noScoreIn).team_scores t r = some w)) :=
  ⟨by decide,
    quiz_C7_decrease_keeps_entries
      (QuizState.mk [(1, "A"), (2, "B"), (3, "C")] [(1, [(1, 4)]), (3, [(2, 9)])] 3 2)
      2 (by decide) 2⟩

/-- C8: when the `team_scores` dictionary lists team ids in ascending order
(as the app always builds it), teams with equal totals appear in ascending
team-id order in the Summary ranking, and the announced winner is the name
looked up for the first entry of the sorted list, whose total is maximal. -/
theorem quiz_C8_ties_and_winner (s : QuizState)
    (hasc : s.team_scores.Pairwise (fun a b => a.1 < b.1)) :
    (sorted_scores s).Pairwise (fun a b => b.2 ≤ a.2 ∧ (a.2 = b.2 → a.1 < b.1))
    ∧ (∀ p rest, sorted_scores s = p :: rest →
        winner s = alistGet p.1 s.team_names ∧ ∀ q ∈ rest, q.2 ≤ p.2) := by
  constructor
  · exact sorted_scores_stable_ties s hasc
  · intro p rest hrest
    constructor
    · unfold winner
      rw [hrest]
    · intro q hq
      have hpw := sorted_scores_stable_ties s hasc
      rw [hrest] at hpw
      exact ((List.pairwise_cons.1 hpw).1 q hq).1

theorem quiz_C8_witness :
    (QuizState.mk [(1, "A"), (2, "B")] [(1, [(1, 5)]), (2, [(1, 5)])] 2 1).team_scores.Pairwise
        (fun a b => a.1 < b.1)
    ∧ ((sorted_scores (QuizState.mk [(1, "A"), (2, "B")] [(1, [(1, 5)]), (2, [(1, 5)])] 2 1)).Pairwise
        (fun a b => b.2 ≤ a.2 ∧ (a.2 = b.2 → a.1 < b.1))
      ∧ (∀ p rest, sorted_scores (QuizState.mk [(1, "A"), (2, "B")] [(1, [(1, 5)]), (2, [(1, 5)])] 2 1) = p :: rest →
          winner (QuizState.mk [(1, "A"), (2, "B")] [(1, [(1, 5)]), (2, [(1, 5)])] 2 1) =
            alistGet p.1 (QuizState.mk [(1, "A"), (2, "B")] [(1, [(1, 5)]), (2, [(1, 5)])] 2 1).team_names
          ∧ ∀ q ∈ rest, q.2 ≤ p.2)) :=
  ⟨by decide,
    quiz_C8_ties_and_winner (QuizState.mk [(1, "A"), (2, "B")] [(1, [(1, 5)]), (2, [(1, 5)])] 2 1)
      (by decide)⟩

/-- C9: if every scored team id has a name entry, then the Team Setup tab,
the Team Scores tab, the reset handler and a first-run load all preserve
that invariant, and under it every Summary name lookup (each ranked line and
the winner) succeeds. -/
theorem quiz_C9_lookup_invariant (s : QuizState) (nT nR : Nat)
    (nameIn : Nat → Option String) (scoreIn : Nat → Nat → Option Nat)
    (hinv : scoresSubNames s) :
    scoresSubNames (teamSetupTab s nT nameIn)
    ∧ scoresSubNames (teamScoresTab s nR scoreIn)
    ∧ scoresSubNames (resetHandler (AppState.mk s [] (some s))).quiz
    ∧ scoresSubNames (load_quiz_data none)
    ∧ (∀ p ∈ sorted_scores s, (alistGet p.1 s.team_names).isSome = true)
    ∧ (sorted_scores s ≠ [] → (winner s).isSome = true) := by
  have hsum : ∀ p ∈ sorted_scores s, (alistGet p.1 s.team_names).isSome = true := by
    intro p hp
    have hp2 : p ∈ total_scores s := (mem_stableSort _ p _).1 hp
    obtain ⟨q, hq, hq2⟩ := List.mem_map.1 hp2
    have : p.1 = q.1 := by rw [← hq2]
    rw [this]
    exact hinv q hq
  refine ⟨?_, ?_, ?_, ?_, hsum, ?_⟩
  · intro p hp
    exact setupNames_isSome nameIn nT s.team_names p.1 (hinv p hp)
  · intro p hp
    have hp1 : (alistGet p.1 (teamScoresTab s nR scoreIn).team_scores).isSome = true :=
      mem_fst_isSome (List.mem_map_of_mem Prod.fst hp)
    rcases scoreRounds_inv _ _ _ _ _ hp1 with h1 | h1
    · rcases initScores_inv _ _ _ h1 with h2 | h2
      · obtain ⟨m, hm⟩ := Option.isSome_iff_exists.1 h2
        exact hinv (p.1, m) (alistGet_eq_some_mem hm)
      · exact mem_fst_isSome h2
    · exact mem_fst_isSome h1
  · intro p hp
    simp [resetHandler, defaultQuizState] at hp
  · intro p hp
    simp [load_quiz_data, defaultQuizState] at hp
  · intro hne
    unfold winner
    cases hsort : sorted_scores s with
    | nil => exact absurd hsort hne
    | cons p rest =>
      exact hsum p (by rw [hsort]; exact List.mem_cons_self _ _)

theorem quiz_C9_witness :
    scoresSubNames (QuizState.mk [(1, "A"), (2, "B")] [(1, [(1, 3)]), (2, [(1, 7)])] 2 1)
    ∧ (scoresSubNames (teamSetupTab (QuizState.mk [(1, "A"), (2, "B")] [(1, [(1, 3)]), (2, [(1, 7)])] 2 1) 1 noNameIn)
      ∧ scoresSubNames (teamScoresTab (QuizState.mk [(1, "A"), (2, "B")] [(1, [(1, 3)]), (2, [(1, 7)])] 2 1) 1 noScoreIn)
      ∧ scoresSubNames (resetHandler (AppState.mk (QuizState.mk [(1, "A"), (2, "B")] [(1, [(1, 3)]), (2, [(1, 7)])] 2 1) []
          (some (QuizState.mk [(1, "A"), (2, "B")] [(1, [(1, 3)]), (2, [(1, 7)])] 2 1)))).quiz
      ∧ scoresSubNames (load_quiz_data none)
      ∧ (∀ p ∈ sorted_scores (QuizState.mk [(1, "A"), (2, "B")] [(1, [(1, 3)]), (2, [(1, 7)])] 2 1),
          (alistGet p.1 (QuizState.mk [(1, "A"), (2, "B")] [(1, [(1, 3)]), (2, [(1, 7)])] 2 1).team_names).isSome = true)
      ∧ (sorted_scores (QuizState.mk [(1, "A"), (2, "B")] [(1, [(1, 3)]), (2, [(1, 7)])] 2 1) ≠ [] →
          (winner (QuizState.mk [(1, "A"), (2, "B")] [(1, [(1, 3)]), (2, [(1, 7)])] 2 1)).isSome = true)) :=
  ⟨by decide,
    quiz_C9_lookup_invariant (QuizState.mk [(1, "A"), (2, "B")] [(1, [(1, 3)]), (2, [(1, 7)])] 2 1)
      1 1 noNameIn noScoreIn (by decide)⟩

/-- C10 (amended): the reset handler itself writes nothing to the data file,
but the Team Setup and Team Scores tab code runs in the same script
execution and saves, so once the reset interaction's rerun completes the
data file holds the freshly saved post-reset session state and `load` now
returns that state. -/
theorem quiz_C10_reset_persistence (a : AppState) (nT nR : Nat)
    (nameIn : Nat → Option String) (scoreIn : Nat → Nat → Option Nat) :
    (resetHandler a).dataFile = a.dataFile
    ∧ (scriptRun a true nT nR nameIn scoreIn).dataFile =
        some ((scriptRun a true nT nR nameIn scoreIn).quiz)
    ∧ load_quiz_data (scriptRun a true nT nR nameIn scoreIn).dataFile =
        (scriptRun a true nT nR nameIn scoreIn).quiz :=
  ⟨rfl, rfl, rfl⟩

/-- C10, original reading refuted: with the state `Alpha` persisted, the
script run triggered by clicking Reset already saves again (line 98 runs on
every rerun), so afterwards `load` no longer returns the previously
persisted state. -/
theorem quiz_C10_counterexample :
    (AppState.mk (QuizState.mk [(1, "Alpha")] [(1, [(1, 7)])] 1 1) []
        (some (QuizState.mk [(1, "Alpha")] [(1, [(1, 7)])] 1 1))).dataFile =
      some (QuizState.mk [(1, "Alpha")] [(1, [(1, 7)])] 1 1)
    ∧ load_quiz_data
        (scriptRun (AppState.mk (QuizState.mk [(1, "Alpha")] [(1, [(1, 7)])] 1 1) []
            (some (QuizState.mk [(1, "Alpha")] [(1, [(1, 7)])] 1 1)))
          true 1 1 noNameIn noScoreIn).dataFile ≠
        QuizState.mk [(1, "Alpha")] [(1, [(1, 7)])] 1 1 := by
  refine ⟨rfl, by decide⟩
